import Mathlib

set_option autoImplicit false

mutual
/-- JSON-like runtime values, as flowing through the tool handlers and the
CallTool result normalization. Arrays and objects use mutually inductive list
types so that all functions over them are structural and computable. Numbers
are modelled as integers (the repository only produces integral counts and
identifiers in its JSON payloads); strings are Lean strings standing for the
JS strings of the source. -/
inductive Json where
  | null : Json
  | bool (b : Bool) : Json
  | num (n : Int) : Json
  | str (s : String) : Json
  | arr (xs : JsonArr) : Json
  | obj (kvs : JsonObj) : Json
inductive JsonArr where
  | nil : JsonArr
  | cons (hd : Json) (tl : JsonArr) : JsonArr
inductive JsonObj where
  | nil : JsonObj
  | cons (key : String) (val : Json) (tl : JsonObj) : JsonObj
end

mutual
/-- Decimal digit character for a value below ten. -/
def digitChar (d : Nat) : Char := Char.ofNat (48 + d)

def natCharsFuel : Nat → Nat → List Char
  | 0, _ => []
  | fuel + 1, n =>
    if n < 10 then [digitChar n]
    else natCharsFuel fuel (n / 10) ++ [digitChar (n % 10)]

/-- Decimal representation of a natural number, as JavaScript String(n)
prints an integral number. -/
def natChars (n : Nat) : List Char := natCharsFuel (n + 1) n

/-- Decimal representation of an integer, matching how JSON.stringify prints
an integral JS number. -/
def intChars : Int → List Char
  | Int.ofNat n => natChars n
  | Int.negSucc m => '-' :: natChars (m + 1)

def hexDigitChar (d : Nat) : Char :=
  if d < 10 then Char.ofNat (48 + d) else Char.ofNat (87 + d)

/-- Escaping of one character inside a JSON string literal, exactly as
JSON.stringify escapes it: the quote, the backslash, the five named control
escapes, a uXXXX escape for the remaining control characters, and every other
character verbatim. -/
def escapeChar (c : Char) : List Char :=
  if c.toNat = 34 then ['\\', '"']
  else if c.toNat = 92 then ['\\', '\\']
  else if c.toNat = 8 then ['\\', 'b']
  else if c.toNat = 9 then ['\\', 't']
  else if c.toNat = 10 then ['\\', 'n']
  else if c.toNat = 12 then ['\\', 'f']
  else if c.toNat = 13 then ['\\', 'r']
  else if c.toNat < 32 then
    ['\\', 'u', '0', '0', hexDigitChar (c.toNat / 16), hexDigitChar (c.toNat % 16)]
  else [c]

def escapeList : List Char → List Char
  | [] => []
  | c :: cs => escapeChar c ++ escapeList cs

/-- A quoted, escaped JSON string literal. -/
def renderString (cs : List Char) : List Char :=
  '"' :: (escapeList cs ++ ['"'])

/-- Indentation at nesting depth d for the two-space indent argument of
JSON.stringify(value, null, 2). -/
def jsonIndent (d : Nat) : List Char := List.replicate (2 * d) ' '

/-- Embedding of JSON.stringify(value, null, 2) as used by the CallTool
request handler of SiyuanMCPServer.setupRequestHandlers to serialize a
structured handler result: empty arrays and objects print as two brackets,
non-empty ones put every element on its own indented line, and object entries
print as key, colon, space, value. -/
def renderVal (d : Nat) : Json → List Char
  | Json.null => ['n', 'u', 'l', 'l']
  | Json.bool true => ['t', 'r', 'u', 'e']
  | Json.bool false => ['f', 'a', 'l', 's', 'e']
  | Json.num n => intChars n
  | Json.str s => renderString s.data
  | Json.arr JsonArr.nil => ['[', ']']
  | Json.arr (JsonArr.cons x xs) =>
    '[' :: '\n' :: (jsonIndent (d + 1) ++ (renderVal (d + 1) x ++
      (renderArrRest d xs ++ ('\n' :: (jsonIndent d ++ [']'])))))
  | Json.obj JsonObj.nil => ['\x7b', '\x7d']
  | Json.obj (JsonObj.cons k v kvs) =>
    '\x7b' :: '\n' :: (jsonIndent (d + 1) ++ (renderString k.data ++ (':' :: ' ' ::
      (renderVal (d + 1) v ++ (renderObjRest d kvs ++ ('\n' :: (jsonIndent d ++ ['\x7d'])))))))

def renderArrRest (d : Nat) : JsonArr → List Char
  | JsonArr.nil => []
  | JsonArr.cons x xs =>
    ',' :: '\n' :: (jsonIndent (d + 1) ++ (renderVal (d + 1) x ++ renderArrRest d xs))

def renderObjRest (d : Nat) : JsonObj → List Char
  | JsonObj.nil => []
  | JsonObj.cons k v kvs =>
    ',' :: '\n' :: (jsonIndent (d + 1) ++ (renderString k.data ++ (':' :: ' ' ::
      (renderVal (d + 1) v ++ renderObjRest d kvs))))
end

mutual
/-- The text JSON.stringify(result, null, 2) produces for a structured
handler result, at top level. -/
def jsonStringify (v : Json) : String := String.mk (renderVal 0 v)

def isWsChar (c : Char) : Bool :=
  c.toNat = 32 || c.toNat = 10 || c.toNat = 9 || c.toNat = 13

def skipWs : List Char → List Char
  | [] => []
  | c :: cs => if isWsChar c then skipWs cs else c :: cs

def isDigitChar (c : Char) : Bool := 48 ≤ c.toNat && c.toNat ≤ 57

def headNotDigit : List Char → Bool
  | [] => true
  | c :: _ => !(isDigitChar c)

def takeDigits : List Char → Nat → Nat × List Char
  | [], acc => (acc, [])
  | c :: cs, acc =>
    if isDigitChar c then takeDigits cs (acc * 10 + (c.toNat - 48)) else (acc, c :: cs)

def hexVal (c : Char) : Option Nat :=
  if 48 ≤ c.toNat && c.toNat ≤ 57 then some (c.toNat - 48)
  else if 97 ≤ c.toNat && c.toNat ≤ 102 then some (c.toNat - 87)
  else if 65 ≤ c.toNat && c.toNat ≤ 70 then some (c.toNat - 55)
  else none

def consHead (c : Char) (r : Option (List Char × List Char)) :
    Option (List Char × List Char) :=
  r.map (fun p => (c :: p.1, p.2))

def numOf (p : Nat × List Char) : Option (Json × List Char) :=
  some (Json.num (Int.ofNat p.1), p.2)

def negOf (p : Nat × List Char) : Option (Json × List Char) :=
  some (Json.num (-(p.1 : Int)), p.2)

/-- JSON string-body parser: consumes characters up to the closing quote,
decoding the escapes that the serializer above can emit, and returns the
decoded characters together with the unconsumed remainder. -/
def parseStrBody : List Char → Option (List Char × List Char)
  | [] => none
  | c :: cs =>
    if c.toNat = 34 then some ([], cs)
    else if c.toNat = 92 then parseEsc cs
    else consHead c (parseStrBody cs)

def parseEsc : List Char → Option (List Char × List Char)
  | [] => none
  | e :: cs =>
    if e.toNat = 34 then consHead '"' (parseStrBody cs)
    else if e.toNat = 92 then consHead '\\' (parseStrBody cs)
    else if e.toNat = 47 then consHead '/' (parseStrBody cs)
    else if e.toNat = 98 then consHead (Char.ofNat 8) (parseStrBody cs)
    else if e.toNat = 116 then consHead (Char.ofNat 9) (parseStrBody cs)
    else if e.toNat = 110 then consHead (Char.ofNat 10) (parseStrBody cs)
    else if e.toNat = 102 then consHead (Char.ofNat 12) (parseStrBody cs)
    else if e.toNat = 114 then consHead (Char.ofNat 13) (parseStrBody cs)
    else if e.toNat = 117 then
      match cs with
      | h1 :: h2 :: h3 :: h4 :: cs' =>
        match hexVal h1, hexVal h2, hexVal h3, hexVal h4 with
        | some a, some b, some c3, some d =>
          consHead (Char.ofNat (a * 4096 + b * 256 + c3 * 16 + d)) (parseStrBody cs')
        | _, _, _, _ => none
      | _ => none
    else none
end

mutual
/-- Fuel-indexed recursive-descent JSON parser. It skips whitespace, then
dispatches on the first character: the three keywords, a string, a number, an
array or an object. It is used to state and settle the round-trip property of
the CallTool result serialization. -/
def parseVal : Nat → List Char → Option (Json × List Char)
  | 0, _ => none
  | fuel + 1, cs =>
    match skipWs cs with
    | [] => none
    | c :: cs' =>
      if c.toNat = 110 then
        match cs' with
        | 'u' :: 'l' :: 'l' :: r => some (Json.null, r)
        | _ => none
      else if c.toNat = 116 then
        match cs' with
        | 'r' :: 'u' :: 'e' :: r => some (Json.bool true, r)
        | _ => none
      else if c.toNat = 102 then
        match cs' with
        | 'a' :: 'l' :: 's' :: 'e' :: r => some (Json.bool false, r)
        | _ => none
      else if c.toNat = 34 then
        match parseStrBody cs' with
        | some (s, r) => some (Json.str (String.mk s), r)
        | none => none
      else if isDigitChar c then
        numOf (takeDigits (c :: cs') 0)
      else if c.toNat = 45 then
        match cs' with
        | c2 :: cs'' =>
          if isDigitChar c2 then negOf (takeDigits (c2 :: cs'') 0)
          else none
        | [] => none
      else if c.toNat = 91 then
        match skipWs cs' with
        | [] => none
        | c2 :: r2 =>
          if c2.toNat = 93 then some (Json.arr JsonArr.nil, r2)
          else
            match parseVal fuel (c2 :: r2) with
            | some (v, r) =>
              match parseArrTail fuel r with
              | some (vs, r') => some (Json.arr (JsonArr.cons v vs), r')
              | none => none
            | none => none
      else if c.toNat = 123 then
        match skipWs cs' with
        | [] => none
        | c2 :: r2 =>
          if c2.toNat = 125 then some (Json.obj JsonObj.nil, r2)
          else
            match parseField fuel (c2 :: r2) with
            | some (k, v, r) =>
              match parseObjTail fuel r with
              | some (kvs, r') => some (Json.obj (JsonObj.cons k v kvs), r')
              | none => none
            | none => none
      else none

def parseArrTail : Nat → List Char → Option (JsonArr × List Char)
  | 0, _ => none
  | fuel + 1, cs =>
    match skipWs cs with
    | [] => none
    | c :: r =>
      if c.toNat = 93 then some (JsonArr.nil, r)
      else if c.toNat = 44 then
        match parseVal fuel r with
        | some (v, r') =>
          match parseArrTail fuel r' with
          | some (vs, r'') => some (JsonArr.cons v vs, r'')
          | none => none
        | none => none
      else none

def parseField : Nat → List Char → Option (String × Json × List Char)
  | 0, _ => none
  | fuel + 1, cs =>
    match skipWs cs with
    | [] => none
    | c :: r =>
      if c.toNat = 34 then
        match parseStrBody r with
        | some (k, r') =>
          match skipWs r' with
          | [] => none
          | c2 :: r'' =>
            if c2.toNat = 58 then
              match parseVal fuel r'' with
              | some (v, r3) => some (String.mk k, v, r3)
              | none => none
            else none
        | none => none
      else none

def parseObjTail : Nat → List Char → Option (JsonObj × List Char)
  | 0, _ => none
  | fuel + 1, cs =>
    match skipWs cs with
    | [] => none
    | c :: r =>
      if c.toNat = 125 then some (JsonObj.nil, r)
      else if c.toNat = 44 then
        match parseField fuel r with
        | some (k, v, r') =>
          match parseObjTail fuel r' with
          | some (kvs, r'') => some (JsonObj.cons k v kvs, r'')
          | none => none
        | none => none
      else none
end

mutual
/-- Whole-input JSON parsing: parse one value with enough fuel and require
that only whitespace remains. -/
def jsonParse (s : String) : Option Json :=
  match parseVal (s.data.length + 1) s.data with
  | some (v, rest) =>
    match skipWs rest with
    | [] => some v
    | _ => none
  | none => none

/-- Fuel sufficient for parseVal to parse the serialization of a value. -/
def jneed : Json → Nat
  | Json.null => 1
  | Json.bool _ => 1
  | Json.num _ => 1
  | Json.str _ => 1
  | Json.arr JsonArr.nil => 1
  | Json.arr (JsonArr.cons x xs) => 1 + max (jneed x) (aneed xs)
  | Json.obj JsonObj.nil => 1
  | Json.obj (JsonObj.cons _ v kvs) => 1 + max (1 + jneed v) (oneed kvs)

def aneed : JsonArr → Nat
  | JsonArr.nil => 1
  | JsonArr.cons x xs => 1 + max (jneed x) (aneed xs)

def oneed : JsonObj → Nat
  | JsonObj.nil => 1
  | JsonObj.cons _ v kvs => 1 + max (1 + jneed v) (oneed kvs)
end

/-- One content block of an MCP response, always of type text in this
server. -/
structure ContentBlock where
  type : String
  text : String

/-- The CallTool response envelope. The source returns an object literal
with a content array, plus isError set to true on the catch path; on the
success path the isError key is absent, which MCP consumers read as false, so
the embedding models it as the boolean false. -/
structure Envelope where
  content : List ContentBlock
  isError : Bool

/-- A tool handler as registered with the server: the descriptor fields of
BaseToolHandler plus execute. The shared ExecutionContext is constant across
all calls, so execute is embedded already applied to it; a resolved value of
undefined is none, a thrown or rejected error is Except.error carrying the
message. -/
structure ToolHandler where
  name : String
  description : String
  inputSchema : Json
  execute : Json → Except String (Option Json)

/-- Modelled from the spec: the file mcp-server/core/registry.ts defining
DefaultToolRegistry is not among the provided sources, so the registry is
modelled from spec section 4.2: a mapping from tool name to handler kept in
registration order. -/
structure DefaultToolRegistry where
  handlers : List ToolHandler

def DefaultToolRegistry.empty : DefaultToolRegistry := ⟨[]⟩

/-- Modelled from the spec: register adds the handler under its name and
fails loudly if the name is already present, spec section 4.2. -/
def DefaultToolRegistry.register (r : DefaultToolRegistry) (h : ToolHandler) :
    Except String DefaultToolRegistry :=
  if r.handlers.any (fun h0 => h0.name == h.name) then
    Except.error ("Tool already registered: " ++ h.name)
  else Except.ok ⟨r.handlers ++ [h]⟩

/-- Modelled from the spec: lookup by name; absence is a normal outcome,
spec section 4.2. -/
def DefaultToolRegistry.get (r : DefaultToolRegistry) (nm : String) : Option ToolHandler :=
  r.handlers.find? (fun h0 => h0.name == nm)

/-- Modelled from the spec: getAll returns the handlers in stable
registration order, spec section 4.2. -/
def DefaultToolRegistry.getAll (r : DefaultToolRegistry) : List ToolHandler := r.handlers

def registryNames (r : DefaultToolRegistry) : List String :=
  r.handlers.map ToolHandler.name

/-- The registration loop of SiyuanMCPServer.registerHandlers: handlers are
registered one by one, and a failing register aborts startup. -/
def registerList (r : DefaultToolRegistry) :
    List ToolHandler → Except String DefaultToolRegistry
  | [] => Except.ok r
  | h :: hs =>
    match r.register h with
    | Except.ok r' => registerList r' hs
    | Except.error e => Except.error e

def Json.isStr : Json → Bool
  | Json.str _ => true
  | _ => false

/-- Result normalization of the CallTool handler: a result of undefined
becomes the literal text Success, a string result is passed through verbatim,
and any other result is pretty-printed with JSON.stringify(result, null, 2). -/
def renderResult : Option Json → String
  | none => "Success"
  | some (Json.str s) => s
  | some v => jsonStringify v

def textBlock (t : String) : ContentBlock := ⟨"text", t⟩

/-- The empty object substituted for missing arguments by the expression
args or-else the empty object in the CallTool handler. -/
def emptyArgs : Json := Json.obj JsonObj.nil

/-- The try block of the CallTool request handler: resolve the handler,
treat an absent handler as a thrown unknown-tool error, run execute on the
arguments, and normalize the result into a single text block. Logging calls
are side effects without control-flow influence and are not modelled. -/
def callToolTry (reg : DefaultToolRegistry) (nm : String) (args : Option Json) :
    Except String Envelope :=
  match reg.get nm with
  | none => Except.error ("Unknown tool: " ++ nm)
  | some h =>
    match h.execute (args.getD emptyArgs) with
    | Except.error e => Except.error e
    | Except.ok r => Except.ok ⟨[textBlock (renderResult r)], false⟩

/-- The CallTool request handler of SiyuanMCPServer.setupRequestHandlers:
the try block above wrapped in the catch that converts any error into an
envelope with isError true and the text Error-colon-space plus the message.
The handler is total: it always returns an envelope and never throws. -/
def callTool (reg : DefaultToolRegistry) (nm : String) (args : Option Json) : Envelope :=
  match callToolTry reg nm args with
  | Except.ok env => env
  | Except.error m => ⟨[textBlock ("Error: " ++ m)], true⟩

structure MCPTool where
  name : String
  description : String
  inputSchema : Json

structure ListToolsResult where
  tools : List MCPTool

/-- The ListTools request handler: map every registered handler, in getAll
order, to its name, description and inputSchema descriptor. -/
def listTools (reg : DefaultToolRegistry) : ListToolsResult :=
  ⟨reg.getAll.map (fun h => ⟨h.name, h.description, h.inputSchema⟩)⟩

structure PromptMessage where
  role : String
  content : ContentBlock

structure GetPromptResult where
  messages : List PromptMessage

def apos : String := String.singleton (Char.ofNat 39)

def usageGuideText : String :=
  String.intercalate "\n"
  ["# SiYuan MCP Server Usage Guide",
   "",
   "## Overview",
   "",
   "This MCP server provides tools for interacting with a SiYuan Note workspace, including search, document management, block-level editing, snapshots, and tag management.",
   "",
   "## Efficiency tips",
   "",
   "- **Prefer block-level tools for targeted edits.** When you have a block ID, use get_block / update_block instead of loading the full document. This saves tokens and is faster.",
   "- **Use document-level tools when full context is needed.** get_document_content is the right choice when you need to understand the overall structure of a note.",
   "- **Use execute_sql for flexible queries.** Direct SQL gives access to the blocks table for complex lookups, aggregation, and sorting.",
   "",
   "## Data safety",
   "",
   "1. Before bulk modifications or deletions, use create_snapshot (add a descriptive memo).",
   "2. Perform the changes.",
   "3. If something goes wrong, use list_snapshots then rollback_to_snapshot to restore.",
   "",
   "## Suggested workflow",
   "",
   "1. **Find documents** — use unified_search or execute_sql",
   "2. **Read content** — use get_document_content (full doc) or get_block (single block)",
   "3. **Create snapshot** — use create_snapshot before making changes",
   "4. **Edit** — use update_block, insert_block, append_block for targeted edits, or update_document for full rewrites",
   "5. **Verify** — re-read the content to confirm",
   "6. **Rollback if needed** — use rollback_to_snapshot",
   "",
   "## Tool categories",
   "",
   "### Search & Query",
   "- unified_search — search by content, filename, tag, or combinations",
   "- execute_sql — raw SQL against the blocks table",
   "",
   "### Document operations",
   "- get_document_content, create_document, append_to_document, update_document",
   "- rename_document, remove_document, move_documents, get_document_tree",
   "- get_hpath_by_id — resolve a block ID to a human-readable path",
   "- append_to_daily_note — append to today" ++ apos ++ "s daily note (auto-creates)",
   "",
   "### Block operations",
   "- get_block / update_block — read or edit a single block by ID",
   "- append_block / insert_block — add content at a specific position",
   "- move_block — reorder or relocate blocks",
   "- get_block_attrs / set_block_attrs — read or write custom metadata",
   "",
   "### Notebook, Snapshot & Tag tools",
   "- list_notebooks, get_recently_updated_documents, create_notebook",
   "- create_snapshot, list_snapshots, rollback_to_snapshot",
   "- list_all_tags, batch_replace_tag",
   "",
   "## Key concepts",
   "",
   "- Every piece of content in SiYuan is a **block** with a unique ID (e.g. 20240101120000-abc1234).",
   "- **Documents** are top-level blocks (type=" ++ apos ++ "d" ++ apos ++ ") containing child blocks.",
   "- When creating documents, paths use the format /folder/document (no .md extension).",
   "- Snapshots require the data repo feature to be enabled in SiYuan.",
   "- Avoid concurrent modifications to the same document."] ++ "\n"

/-- The two messages returned for the siyuan-usage-guide prompt. -/
def usagePromptMessages : List PromptMessage :=
  [⟨"user", textBlock "Please read the SiYuan MCP server usage guide."⟩,
   ⟨"assistant", textBlock usageGuideText⟩]

/-- The GetPrompt request handler: the fixed prompt name returns the usage
guide messages; any other name throws an unknown-prompt error which, unlike
the CallTool path, is not converted into an envelope. -/
def getPrompt (nm : String) : Except String GetPromptResult :=
  if nm = "siyuan-usage-guide" then Except.ok ⟨usagePromptMessages⟩
  else Except.error ("Unknown prompt: " ++ nm)

/-- The slice of the workspace block API used by the insert_block handler:
insertBlockBefore and insertBlockAfter, each returning the new block id or
failing. -/
structure BlockApi where
  insertBlockBefore : String → String → Except String String
  insertBlockAfter : String → String → Except String String

structure InsertBlockArgs where
  content : String
  before_id : Option String
  after_id : Option String

/-- JS truthiness of an optional string argument, as tested by the
double-negation on args.before_id and args.after_id: absent and empty strings
are falsy. -/
def truthyStr : Option String → Bool
  | none => false
  | some s => !s.isEmpty

structure InsertBlockResult where
  block_id : String

/-- InsertBlockHandler.execute: requires exactly one of before_id and
after_id to be provided, otherwise throws; with exactly one it calls the
corresponding workspace insert operation and resolves to an object carrying
the new block id. -/
def insertBlockExecute (api : BlockApi) (args : InsertBlockArgs) :
    Except String InsertBlockResult :=
  let hasBefore := truthyStr args.before_id
  let hasAfter := truthyStr args.after_id
  if !hasBefore && !hasAfter then
    Except.error "Must provide exactly one of: before_id or after_id"
  else if hasBefore && hasAfter then
    Except.error "Cannot provide both before_id and after_id — choose only one"
  else if hasBefore then
    (api.insertBlockBefore (args.before_id.getD "") args.content).map
      (fun bid => ⟨bid⟩)
  else
    (api.insertBlockAfter (args.after_id.getD "") args.content).map
      (fun bid => ⟨bid⟩)

/-- A row of the blocks table as returned by the raw SQL query collaborator.
The TypeScript Block type file is not among the provided sources; the columns
are those the execute_sql tool description enumerates. The column named alias
is rendered here as aliasName because alias is a reserved word in Lean. -/
structure Block where
  id : String
  parent_id : String
  root_id : String
  box : String
  path : String
  hpath : String
  name : String
  aliasName : String
  memo : String
  tag : String
  content : String
  type : String
  subtype : String
  ial : String
  sort : String
  created : String
  updated : String

structure SearchApi where
  query : String → Except String (List Block)

structure FindBlockArgs where
  document_id : String
  content_query : String
  types : Option (List String)

structure FoundBlock where
  id : String
  type : String
  content : String

/-- A single-quote character as a string, for building SQL literals. -/
def sqQuote : String := String.singleton (Char.ofNat 39)

def sqlEscapeChars : List Char → List Char
  | [] => []
  | c :: cs =>
    if c.toNat = 39 then Char.ofNat 39 :: Char.ofNat 39 :: sqlEscapeChars cs
    else c :: sqlEscapeChars cs

/-- The quote doubling performed by replace of quote with two quotes in
FindBlockInDocumentHandler.execute. -/
def sqlEscape (s : String) : String := String.mk (sqlEscapeChars s.data)

/-- The SQL string built by FindBlockInDocumentHandler.execute before the
final LIMIT clause: the select with the root_id filter and the escaped LIKE
pattern, plus an optional type IN filter when a non-empty types array is
given. The document id is interpolated unescaped, exactly as in the source. -/
def findBlockSqlCore (documentId contentQuery : String)
    (types : Option (List String)) : String :=
  let base := "SELECT id, type, content FROM blocks WHERE root_id = " ++ sqQuote ++
    documentId ++ sqQuote ++ " AND content LIKE " ++ sqQuote ++ "%" ++
    sqlEscape contentQuery ++ "%" ++ sqQuote
  match types with
  | some ts =>
    if 0 < ts.length then
      base ++ " AND type IN (" ++
        String.intercalate "," (ts.map (fun t => sqQuote ++ sqlEscape t ++ sqQuote)) ++ ")"
    else base
  | none => base

/-- The complete SQL string sent by FindBlockInDocumentHandler.execute; the
source appends the literal LIMIT 20 as the last step. -/
def findBlockSql (documentId contentQuery : String)
    (types : Option (List String)) : String :=
  findBlockSqlCore documentId contentQuery types ++ " LIMIT 20"

def projectFound (b : Block) : FoundBlock := ⟨b.id, b.type, b.content⟩

/-- FindBlockInDocumentHandler.execute: run the built query through the
search collaborator and project each returned row to id, type and content. -/
def findBlockExecute (api : SearchApi) (args : FindBlockArgs) :
    Except String (List FoundBlock) :=
  (api.query (findBlockSql args.document_id args.content_query args.types)).map
    (List.map projectFound)

theorem digitChar_toNat (d : Nat) (h : d < 10) : (digitChar d).toNat = 48 + d := by
  interval_cases d <;> rfl

theorem isDigitChar_digitChar (d : Nat) (h : d < 10) : isDigitChar (digitChar d) = true := by
  interval_cases d <;> rfl

theorem isDigitChar_bounds {c : Char} (h : isDigitChar c = true) :
    48 ≤ c.toNat ∧ c.toNat ≤ 57 := by
  simpa [isDigitChar, Bool.and_eq_true, decide_eq_true_eq] using h

theorem natCharsFuel_head (fuel n : Nat) (h : n < fuel) :
    ∃ c t, natCharsFuel fuel n = c :: t ∧ isDigitChar c = true := by
  induction fuel generalizing n with
  | zero => omega
  | succ fuel ih =>
    by_cases h10 : n < 10
    · exact ⟨digitChar n, [], by simp [natCharsFuel, h10], isDigitChar_digitChar n h10⟩
    · have hdiv : n / 10 < fuel := by
        have := Nat.div_lt_self (by omega : 0 < n) (by omega : 1 < 10)
        omega
      obtain ⟨c, t, heq, hd⟩ := ih (n / 10) hdiv
      exact ⟨c, t ++ [digitChar (n % 10)], by simp [natCharsFuel, h10, heq], hd⟩

theorem takeDigits_step {c : Char} (cs : List Char) (acc : Nat) (h : isDigitChar c = true) :
    takeDigits (c :: cs) acc = takeDigits cs (acc * 10 + (c.toNat - 48)) := by
  simp [takeDigits, h]

theorem takeDigits_stop {rest : List Char} (acc : Nat) (h : headNotDigit rest = true) :
    takeDigits rest acc = (acc, rest) := by
  cases rest with
  | nil => rfl
  | cons c cs =>
    have : isDigitChar c = false := by simpa [headNotDigit] using h
    simp [takeDigits, this]

theorem takeDigits_natCharsFuel (fuel : Nat) :
    ∀ (n : Nat), n < fuel → ∀ (rest : List Char) (acc : Nat),
    takeDigits (natCharsFuel fuel n ++ rest) acc =
      takeDigits rest (acc * 10 ^ (natCharsFuel fuel n).length + n) := by
  induction fuel with
  | zero => omega
  | succ fuel ih =>
    intro n h rest acc
    by_cases h10 : n < 10
    · rw [natCharsFuel]
      simp only [h10, if_true, List.length_cons, List.length_nil, List.cons_append,
        List.nil_append]
      rw [takeDigits_step _ _ (isDigitChar_digitChar n h10), digitChar_toNat n h10]
      norm_num
    · have hdiv : n / 10 < fuel := by
        have := Nat.div_lt_self (by omega : 0 < n) (by omega : 1 < 10)
        omega
      rw [natCharsFuel]
      simp only [h10, if_false, List.append_assoc, List.length_append, List.length_cons,
        List.length_nil]
      rw [ih (n / 10) hdiv]
      simp only [List.singleton_append]
      rw [takeDigits_step _ _ (isDigitChar_digitChar _ (Nat.mod_lt n (by omega))),
        digitChar_toNat _ (Nat.mod_lt n (by omega))]
      have harith :
          (acc * 10 ^ (natCharsFuel fuel (n / 10)).length + n / 10) * 10 +
            (48 + n % 10 - 48) =
            acc * 10 ^ ((natCharsFuel fuel (n / 10)).length + (0 + 1)) + n := by
        have hmod : n % 10 + 10 * (n / 10) = n := Nat.mod_add_div n 10
        have hpow : (10 : Nat) ^ ((natCharsFuel fuel (n / 10)).length + (0 + 1)) =
            10 ^ (natCharsFuel fuel (n / 10)).length * 10 := by
          rw [pow_succ]
        rw [hpow]
        ring_nf
        omega
      rw [harith]

theorem takeDigits_natChars (n : Nat) (rest : List Char) (hrest : headNotDigit rest = true) :
    takeDigits (natChars n ++ rest) 0 = (n, rest) := by
  rw [natChars, takeDigits_natCharsFuel (n + 1) n (by omega)]
  rw [takeDigits_stop _ hrest]
  norm_num

theorem skipWs_cons_ws {c : Char} (cs : List Char) (h : isWsChar c = true) :
    skipWs (c :: cs) = skipWs cs := by
  simp [skipWs, h]

theorem skipWs_cons_not_ws {c : Char} (cs : List Char) (h : isWsChar c = false) :
    skipWs (c :: cs) = c :: cs := by
  simp [skipWs, h]

theorem skipWs_replicate_space (m : Nat) (t : List Char) :
    skipWs (List.replicate m ' ' ++ t) = skipWs t := by
  induction m with
  | zero => simp
  | succ m ih => simpa [List.replicate_succ, skipWs, isWsChar] using ih

theorem skipWs_indent (d : Nat) (t : List Char) :
    skipWs (jsonIndent d ++ t) = skipWs t := by
  simp [jsonIndent, skipWs_replicate_space]

theorem skipWs_newline (t : List Char) : skipWs ('\n' :: t) = skipWs t := by
  simp [skipWs, isWsChar]

theorem hexVal_hexDigitChar (x : Nat) (h : x < 16) : hexVal (hexDigitChar x) = some x := by
  interval_cases x <;> rfl

theorem parseStrBody_cons_quote (cs : List Char) :
    parseStrBody ('"' :: cs) = some ([], cs) := by
  rw [parseStrBody.eq_def]
  simp only []
  rw [if_pos (by decide)]

theorem parseStrBody_cons_other {c : Char} (cs : List Char)
    (h34 : ¬c.toNat = 34) (h92 : ¬c.toNat = 92) :
    parseStrBody (c :: cs) = consHead c (parseStrBody cs) := by
  rw [parseStrBody.eq_def]
  simp only []
  rw [if_neg h34, if_neg h92]

theorem parseStrBody_escapeList (cs : List Char) (rest : List Char) :
    parseStrBody (escapeList cs ++ ('"' :: rest)) = some (cs, rest) := by
  induction cs with
  | nil =>
    show parseStrBody ('"' :: rest) = _
    exact parseStrBody_cons_quote rest
  | cons c cs ih =>
    show parseStrBody ((escapeChar c ++ escapeList cs) ++ ('"' :: rest)) = _
    rw [List.append_assoc, escapeChar]
    by_cases h34 : c.toNat = 34
    · have hc : Char.ofNat 34 = c := by rw [← h34]; exact Char.ofNat_toNat c
      simp only [h34, if_true]
      show parseStrBody ('\\' :: '"' :: (escapeList cs ++ ('"' :: rest))) = _
      rw [parseStrBody.eq_def]
      simp only []
      rw [if_neg (by decide), if_pos (by decide), parseEsc.eq_def]
      simp only []
      rw [if_pos (by decide), ih]
      simp only [consHead, Option.map_some']
      exact congrArg (fun x => some (x :: cs, rest)) hc
    · by_cases h92 : c.toNat = 92
      · have hc : Char.ofNat 92 = c := by rw [← h92]; exact Char.ofNat_toNat c
        simp only [h34, if_false, h92, if_true]
        show parseStrBody ('\\' :: '\\' :: (escapeList cs ++ ('"' :: rest))) = _
        rw [parseStrBody.eq_def]
        simp only []
        rw [if_neg (by decide), if_pos (by decide), parseEsc.eq_def]
        simp only []
        rw [if_neg (by decide), if_pos (by decide), ih]
        simp only [consHead, Option.map_some']
        exact congrArg (fun x => some (x :: cs, rest)) hc
      · by_cases h8 : c.toNat = 8
        · have hc : Char.ofNat 8 = c := by rw [← h8]; exact Char.ofNat_toNat c
          simp only [h34, h92, h8, if_false, if_true]
          show parseStrBody ('\\' :: 'b' :: (escapeList cs ++ ('"' :: rest))) = _
          rw [parseStrBody.eq_def]
          simp only []
          rw [if_neg (by decide), if_pos (by decide), parseEsc.eq_def]
          simp only []
          rw [if_neg (by decide), if_neg (by decide), if_neg (by decide),
            if_pos (by decide), ih]
          simp only [consHead, Option.map_some']
          exact congrArg (fun x => some (x :: cs, rest)) hc
        · by_cases h9 : c.toNat = 9
          · have hc : Char.ofNat 9 = c := by rw [← h9]; exact Char.ofNat_toNat c
            simp only [h34, h92, h8, h9, if_false, if_true]
            show parseStrBody ('\\' :: 't' :: (escapeList cs ++ ('"' :: rest))) = _
            rw [parseStrBody.eq_def]
            simp only []
            rw [if_neg (by decide), if_pos (by decide), parseEsc.eq_def]
            simp only []
            rw [if_neg (by decide), if_neg (by decide), if_neg (by decide),
              if_neg (by decide), if_pos (by decide), ih]
            simp only [consHead, Option.map_some']
            exact congrArg (fun x => some (x :: cs, rest)) hc
          · by_cases h10 : c.toNat = 10
            · have hc : Char.ofNat 10 = c := by rw [← h10]; exact Char.ofNat_toNat c
              simp only [h34, h92, h8, h9, h10, if_false, if_true]
              show parseStrBody ('\\' :: 'n' :: (escapeList cs ++ ('"' :: rest))) = _
              rw [parseStrBody.eq_def]
              simp only []
              rw [if_neg (by decide), if_pos (by decide), parseEsc.eq_def]
              simp only []
              rw [if_neg (by decide), if_neg (by decide), if_neg (by decide),
                if_neg (by decide), if_neg (by decide), if_pos (by decide), ih]
              simp only [consHead, Option.map_some']
              exact congrArg (fun x => some (x :: cs, rest)) hc
            · by_cases h12 : c.toNat = 12
              · have hc : Char.ofNat 12 = c := by rw [← h12]; exact Char.ofNat_toNat c
                simp only [h34, h92, h8, h9, h10, h12, if_false, if_true]
                show parseStrBody ('\\' :: 'f' :: (escapeList cs ++ ('"' :: rest))) = _
                rw [parseStrBody.eq_def]
                simp only []
                rw [if_neg (by decide), if_pos (by decide), parseEsc.eq_def]
                simp only []
                rw [if_neg (by decide), if_neg (by decide), if_neg (by decide),
                  if_neg (by decide), if_neg (by decide), if_neg (by decide),
                  if_pos (by decide), ih]
                simp only [consHead, Option.map_some']
                exact congrArg (fun x => some (x :: cs, rest)) hc
              · by_cases h13 : c.toNat = 13
                · have hc : Char.ofNat 13 = c := by rw [← h13]; exact Char.ofNat_toNat c
                  simp only [h34, h92, h8, h9, h10, h12, h13, if_false, if_true]
                  show parseStrBody ('\\' :: 'r' :: (escapeList cs ++ ('"' :: rest))) = _
                  rw [parseStrBody.eq_def]
                  simp only []
                  rw [if_neg (by decide), if_pos (by decide), parseEsc.eq_def]
                  simp only []
                  rw [if_neg (by decide), if_neg (by decide), if_neg (by decide),
                    if_neg (by decide), if_neg (by decide), if_neg (by decide),
                    if_neg (by decide), if_pos (by decide), ih]
                  simp only [consHead, Option.map_some']
                  exact congrArg (fun x => some (x :: cs, rest)) hc
                · by_cases h32 : c.toNat < 32
                  · simp only [h34, h92, h8, h9, h10, h12, h13, if_false, h32, if_true]
                    show parseStrBody ('\\' :: 'u' :: '0' :: '0' ::
                      hexDigitChar (c.toNat / 16) :: hexDigitChar (c.toNat % 16) ::
                      (escapeList cs ++ ('"' :: rest))) = _
                    rw [parseStrBody.eq_def]
                    simp only []
                    rw [if_neg (by decide), if_pos (by decide), parseEsc.eq_def]
                    simp only []
                    rw [if_neg (by decide), if_neg (by decide), if_neg (by decide),
                      if_neg (by decide), if_neg (by decide), if_neg (by decide),
                      if_neg (by decide), if_neg (by decide), if_pos (by decide)]
                    have hv0 : hexVal '0' = some 0 := by decide
                    rw [hv0,
                      hexVal_hexDigitChar (c.toNat / 16) (by omega),
                      hexVal_hexDigitChar (c.toNat % 16) (by omega)]
                    simp only []
                    have hval : 0 * 4096 + 0 * 256 + c.toNat / 16 * 16 + c.toNat % 16 =
                        c.toNat := by omega
                    rw [hval, ih]
                    simp only [consHead, Option.map_some']
                    exact congrArg (fun x => some (x :: cs, rest)) (Char.ofNat_toNat c)
                  · simp only [h34, h92, h8, h9, h10, h12, h13, h32, if_false]
                    show parseStrBody (c :: (escapeList cs ++ ('"' :: rest))) = _
                    rw [parseStrBody_cons_other _ h34 h92, ih]
                    simp [consHead]

theorem jneed_pos (v : Json) : 1 ≤ jneed v := by
  cases v with
  | null => simp [jneed]
  | bool b => simp [jneed]
  | num n => simp [jneed]
  | str s => simp [jneed]
  | arr xs => cases xs <;> simp [jneed]
  | obj kvs => cases kvs <;> simp [jneed]

theorem skipWs_skipWs (cs : List Char) : skipWs (skipWs cs) = skipWs cs := by
  induction cs with
  | nil => rfl
  | cons c cs ih =>
    by_cases h : isWsChar c = true
    · rw [skipWs_cons_ws cs h, ih]
    · have h' : isWsChar c = false := by simpa using h
      rw [skipWs_cons_not_ws cs h', skipWs_cons_not_ws cs h']

theorem parseVal_skipWs (fuel : Nat) (cs : List Char) :
    parseVal fuel cs = parseVal fuel (skipWs cs) := by
  cases fuel with
  | zero => rfl
  | succ fuel =>
    rw [parseVal.eq_def, parseVal.eq_def]
    simp only []
    rw [skipWs_skipWs]

theorem parseField_skipWs (fuel : Nat) (cs : List Char) :
    parseField fuel cs = parseField fuel (skipWs cs) := by
  cases fuel with
  | zero => rfl
  | succ fuel =>
    rw [parseField.eq_def, parseField.eq_def]
    simp only []
    rw [skipWs_skipWs]

theorem isWsChar_false_of_toNat {c : Char} (h32 : c.toNat ≠ 32) (h10 : c.toNat ≠ 10)
    (h9 : c.toNat ≠ 9) (h13 : c.toNat ≠ 13) : isWsChar c = false := by
  simp only [isWsChar, Bool.or_eq_false_iff, decide_eq_false_iff_not]
  exact ⟨⟨⟨h32, h10⟩, h9⟩, h13⟩

theorem renderVal_head (d : Nat) (v : Json) :
    ∃ c t, renderVal d v = c :: t ∧ isWsChar c = false ∧
      c.toNat ≠ 93 ∧ c.toNat ≠ 125 ∧ c.toNat ≠ 44 := by
  cases v with
  | null => exact ⟨'n', _, rfl, by decide, by decide, by decide, by decide⟩
  | bool b =>
    cases b with
    | true => exact ⟨'t', _, rfl, by decide, by decide, by decide, by decide⟩
    | false => exact ⟨'f', _, rfl, by decide, by decide, by decide, by decide⟩
  | num n =>
    cases n with
    | ofNat m =>
      obtain ⟨c, t, heq, hdig⟩ := natCharsFuel_head (m + 1) m (by omega)
      have hb := isDigitChar_bounds hdig
      refine ⟨c, t, ?_, ?_, by omega, by omega, by omega⟩
      · show intChars (Int.ofNat m) = c :: t
        rw [intChars, natChars, heq]
      · exact isWsChar_false_of_toNat (by omega) (by omega) (by omega) (by omega)
    | negSucc m =>
      refine ⟨'-', natChars (m + 1), ?_, by decide, by decide, by decide, by decide⟩
      show intChars (Int.negSucc m) = _
      rw [intChars]
  | str s => exact ⟨'"', _, rfl, by decide, by decide, by decide, by decide⟩
  | arr xs =>
    cases xs with
    | nil => exact ⟨'[', _, rfl, by decide, by decide, by decide, by decide⟩
    | cons x tl => exact ⟨'[', _, rfl, by decide, by decide, by decide, by decide⟩
  | obj kvs =>
    cases kvs with
    | nil => exact ⟨'\x7b', _, rfl, by decide, by decide, by decide, by decide⟩
    | cons k v tl => exact ⟨'\x7b', _, rfl, by decide, by decide, by decide, by decide⟩

theorem headNotDigit_arrRest (d : Nat) (xs : JsonArr) (z : List Char) :
    headNotDigit (renderArrRest d xs ++ '\n' :: z) = true := by
  cases xs <;> rfl

theorem headNotDigit_objRest (d : Nat) (kvs : JsonObj) (z : List Char) :
    headNotDigit (renderObjRest d kvs ++ '\n' :: z) = true := by
  cases kvs <;> rfl

theorem string_mk_data (s : String) : String.mk s.data = s := by
  cases s
  rfl

theorem parseField_of (fuel : Nat) (k : String) (v : Json) (d : Nat) (z : List Char)
    (hv : parseVal fuel (renderVal (d + 1) v ++ z) = some (v, z)) :
    parseField (fuel + 1)
      (renderString k.data ++ (':' :: ' ' :: (renderVal (d + 1) v ++ z))) =
      some (k, v, z) := by
  show parseField (fuel + 1)
    ('"' :: ((escapeList k.data ++ ['"']) ++ (':' :: ' ' :: (renderVal (d + 1) v ++ z)))) = _
  rw [parseField.eq_def]
  simp only []
  rw [skipWs_cons_not_ws _ (by decide)]
  simp only []
  rw [if_pos (by decide)]
  rw [List.append_assoc, List.singleton_append]
  rw [parseStrBody_escapeList]
  simp only []
  rw [skipWs_cons_not_ws _ (by decide)]
  simp only []
  rw [if_pos (by decide)]
  have hsp : parseVal fuel (' ' :: (renderVal (d + 1) v ++ z)) =
      parseVal fuel (renderVal (d + 1) v ++ z) := by
    obtain ⟨c0, t0, hx, hxws, _, _, _⟩ := renderVal_head (d + 1) v
    rw [parseVal_skipWs fuel (' ' :: (renderVal (d + 1) v ++ z))]
    rw [skipWs_cons_ws _ (by decide)]
    rw [hx]
    simp only [List.cons_append]
    rw [skipWs_cons_not_ws _ hxws]
  rw [hsp, hv]

mutual
theorem parse_render_val : ∀ (v : Json) (d : Nat) (rest : List Char) (fuel : Nat),
    jneed v ≤ fuel → headNotDigit rest = true →
    parseVal fuel (renderVal d v ++ rest) = some (v, rest)
  | Json.null, d, rest, fuel, hf, _ => by
    have h1 : 1 ≤ fuel := le_trans (jneed_pos _) hf
    obtain ⟨f, rfl⟩ : ∃ f, fuel = f + 1 := ⟨fuel - 1, by omega⟩
    show parseVal (f + 1) ('n' :: 'u' :: 'l' :: 'l' :: rest) = _
    rw [parseVal.eq_def]
    simp only []
    rw [skipWs_cons_not_ws _ (by decide)]
    simp only []
    rw [if_pos (by decide)]
  | Json.bool true, d, rest, fuel, hf, _ => by
    have h1 : 1 ≤ fuel := le_trans (jneed_pos _) hf
    obtain ⟨f, rfl⟩ : ∃ f, fuel = f + 1 := ⟨fuel - 1, by omega⟩
    show parseVal (f + 1) ('t' :: 'r' :: 'u' :: 'e' :: rest) = _
    rw [parseVal.eq_def]
    simp only []
    rw [skipWs_cons_not_ws _ (by decide)]
    simp only []
    rw [if_neg (by decide), if_pos (by decide)]
  | Json.bool false, d, rest, fuel, hf, _ => by
    have h1 : 1 ≤ fuel := le_trans (jneed_pos _) hf
    obtain ⟨f, rfl⟩ : ∃ f, fuel = f + 1 := ⟨fuel - 1, by omega⟩
    show parseVal (f + 1) ('f' :: 'a' :: 'l' :: 's' :: 'e' :: rest) = _
    rw [parseVal.eq_def]
    simp only []
    rw [skipWs_cons_not_ws _ (by decide)]
    simp only []
    rw [if_neg (by decide), if_neg (by decide), if_pos (by decide)]
  | Json.num (Int.ofNat n), d, rest, fuel, hf, hrest => by
    have h1 : 1 ≤ fuel := le_trans (jneed_pos _) hf
    obtain ⟨f, rfl⟩ : ∃ f, fuel = f + 1 := ⟨fuel - 1, by omega⟩
    obtain ⟨c, t, heq, hdig⟩ := natCharsFuel_head (n + 1) n (by omega)
    have hb := isDigitChar_bounds hdig
    show parseVal (f + 1) (natChars n ++ rest) = _
    rw [natChars, heq]
    simp only [List.cons_append]
    rw [parseVal.eq_def]
    simp only []
    rw [skipWs_cons_not_ws _
      (isWsChar_false_of_toNat (by omega) (by omega) (by omega) (by omega))]
    simp only []
    rw [if_neg (by omega), if_neg (by omega), if_neg (by omega), if_neg (by omega),
      if_pos hdig]
    have hback : c :: (t ++ rest) = natChars n ++ rest := by
      rw [natChars, heq]
      simp
    rw [hback, takeDigits_natChars n rest hrest]
    rfl
  | Json.num (Int.negSucc m), d, rest, fuel, hf, hrest => by
    have h1 : 1 ≤ fuel := le_trans (jneed_pos _) hf
    obtain ⟨f, rfl⟩ : ∃ f, fuel = f + 1 := ⟨fuel - 1, by omega⟩
    obtain ⟨c, t, heq, hdig⟩ := natCharsFuel_head (m + 2) (m + 1) (by omega)
    have hb := isDigitChar_bounds hdig
    show parseVal (f + 1) ('-' :: (natChars (m + 1) ++ rest)) = _
    rw [parseVal.eq_def]
    simp only []
    rw [skipWs_cons_not_ws _ (by decide)]
    simp only []
    rw [if_neg (by decide), if_neg (by decide), if_neg (by decide), if_neg (by decide),
      if_neg (by decide), if_pos (by decide)]
    rw [natChars, heq]
    simp only [List.cons_append]
    rw [if_pos hdig]
    have hback : c :: (t ++ rest) = natChars (m + 1) ++ rest := by
      rw [natChars, heq]
      simp
    rw [hback, takeDigits_natChars (m + 1) rest hrest]
    show some (Json.num (-((m + 1 : Nat) : Int)), rest) = _
    have hneg : -((m + 1 : Nat) : Int) = Int.negSucc m := by
      rw [Int.negSucc_eq]
      push_cast
      ring
    rw [hneg]
  | Json.str s, d, rest, fuel, hf, _ => by
    have h1 : 1 ≤ fuel := le_trans (jneed_pos _) hf
    obtain ⟨f, rfl⟩ : ∃ f, fuel = f + 1 := ⟨fuel - 1, by omega⟩
    show parseVal (f + 1) ('"' :: ((escapeList s.data ++ ['"']) ++ rest)) = _
    rw [parseVal.eq_def]
    simp only []
    rw [skipWs_cons_not_ws _ (by decide)]
    simp only []
    rw [if_neg (by decide), if_neg (by decide), if_neg (by decide), if_pos (by decide)]
    rw [List.append_assoc, List.singleton_append, parseStrBody_escapeList]
  | Json.arr JsonArr.nil, d, rest, fuel, hf, _ => by
    have h1 : 1 ≤ fuel := le_trans (jneed_pos _) hf
    obtain ⟨f, rfl⟩ : ∃ f, fuel = f + 1 := ⟨fuel - 1, by omega⟩
    show parseVal (f + 1) ('[' :: ']' :: rest) = _
    rw [parseVal.eq_def]
    simp only []
    rw [skipWs_cons_not_ws _ (by decide)]
    simp only []
    rw [if_neg (by decide), if_neg (by decide), if_neg (by decide), if_neg (by decide),
      if_neg (by decide), if_neg (by decide), if_pos (by decide)]
    rw [skipWs_cons_not_ws _ (by decide)]
    simp only []
    rw [if_pos (by decide)]
  | Json.arr (JsonArr.cons x xs), d, rest, fuel, hf, hrest => by
    have h1 : 1 ≤ fuel := le_trans (jneed_pos _) hf
    obtain ⟨f, rfl⟩ : ∃ f, fuel = f + 1 := ⟨fuel - 1, by omega⟩
    rw [jneed] at hf
    have hx_le : jneed x ≤ f := by
      have := le_max_left (jneed x) (aneed xs)
      omega
    have hxs_le : aneed xs ≤ f := by
      have := le_max_right (jneed x) (aneed xs)
      omega
    show parseVal (f + 1)
      (('[' :: '\n' :: (jsonIndent (d + 1) ++ (renderVal (d + 1) x ++
        (renderArrRest d xs ++ ('\n' :: (jsonIndent d ++ [']'])))))) ++ rest) = _
    simp only [List.cons_append, List.append_assoc, List.singleton_append, List.nil_append]
    rw [parseVal.eq_def]
    simp only []
    rw [skipWs_cons_not_ws _ (by decide)]
    simp only []
    rw [if_neg (by decide), if_neg (by decide), if_neg (by decide), if_neg (by decide),
      if_neg (by decide), if_neg (by decide), if_pos (by decide)]
    obtain ⟨c0, t0, hx, hxws, hx93, _, _⟩ := renderVal_head (d + 1) x
    have hskip : skipWs ('\n' :: (jsonIndent (d + 1) ++ (renderVal (d + 1) x ++
        (renderArrRest d xs ++ ('\n' :: (jsonIndent d ++ (']' :: rest))))))) =
        c0 :: (t0 ++ (renderArrRest d xs ++ ('\n' :: (jsonIndent d ++ (']' :: rest))))) := by
      rw [skipWs_newline, skipWs_indent, hx]
      simp only [List.cons_append]
      rw [skipWs_cons_not_ws _ hxws]
    rw [hskip]
    simp only []
    rw [if_neg hx93]
    have hback : c0 :: (t0 ++ (renderArrRest d xs ++ ('\n' :: (jsonIndent d ++ (']' :: rest))))) =
        renderVal (d + 1) x ++ (renderArrRest d xs ++ ('\n' :: (jsonIndent d ++ (']' :: rest)))) := by
      rw [hx]
      simp
    rw [hback]
    rw [parse_render_val x (d + 1) _ f hx_le (headNotDigit_arrRest d xs _)]
    simp only []
    rw [parse_render_arr xs d rest f hxs_le hrest]
  | Json.obj JsonObj.nil, d, rest, fuel, hf, _ => by
    have h1 : 1 ≤ fuel := le_trans (jneed_pos _) hf
    obtain ⟨f, rfl⟩ : ∃ f, fuel = f + 1 := ⟨fuel - 1, by omega⟩
    show parseVal (f + 1) ('\x7b' :: '\x7d' :: rest) = _
    rw [parseVal.eq_def]
    simp only []
    rw [skipWs_cons_not_ws _ (by decide)]
    simp only []
    rw [if_neg (by decide), if_neg (by decide), if_neg (by decide), if_neg (by decide),
      if_neg (by decide), if_neg (by decide), if_neg (by decide), if_pos (by decide)]
    rw [skipWs_cons_not_ws _ (by decide)]
    simp only []
    rw [if_pos (by decide)]
  | Json.obj (JsonObj.cons k v kvs), d, rest, fuel, hf, hrest => by
    have h1 : 1 ≤ fuel := le_trans (jneed_pos _) hf
    obtain ⟨f, rfl⟩ : ∃ f, fuel = f + 1 := ⟨fuel - 1, by omega⟩
    rw [jneed] at hf
    have hv_le : 1 + jneed v ≤ f := by
      have := le_max_left (1 + jneed v) (oneed kvs)
      omega
    have hkvs_le : oneed kvs ≤ f := by
      have := le_max_right (1 + jneed v) (oneed kvs)
      omega
    obtain ⟨f2, rfl⟩ : ∃ f2, f = f2 + 1 := ⟨f - 1, by omega⟩
    show parseVal (f2 + 1 + 1)
      (('\x7b' :: '\n' :: (jsonIndent (d + 1) ++ (renderString k.data ++ (':' :: ' ' ::
        (renderVal (d + 1) v ++ (renderObjRest d kvs ++
          ('\n' :: (jsonIndent d ++ ['\x7d'])))))))) ++ rest) = _
    simp only [List.cons_append, List.append_assoc, List.singleton_append, List.nil_append]
    rw [parseVal.eq_def]
    simp only []
    rw [skipWs_cons_not_ws _ (by decide)]
    simp only []
    rw [if_neg (by decide), if_neg (by decide), if_neg (by decide), if_neg (by decide),
      if_neg (by decide), if_neg (by decide), if_neg (by decide), if_pos (by decide)]
    have hskip : skipWs ('\n' :: (jsonIndent (d + 1) ++ (renderString k.data ++ (':' :: ' ' ::
        (renderVal (d + 1) v ++ (renderObjRest d kvs ++
          ('\n' :: (jsonIndent d ++ ('\x7d' :: rest))))))))) =
        '"' :: ((escapeList k.data ++ ['"']) ++ (':' :: ' ' ::
          (renderVal (d + 1) v ++ (renderObjRest d kvs ++
            ('\n' :: (jsonIndent d ++ ('\x7d' :: rest))))))) := by
      rw [skipWs_newline, skipWs_indent]
      show skipWs ('"' :: ((escapeList k.data ++ ['"']) ++ _)) = _
      rw [skipWs_cons_not_ws _ (by decide)]
    rw [hskip]
    simp only []
    rw [if_neg (by decide)]
    have hfield := parseField_of f2 k v d
      (renderObjRest d kvs ++ ('\n' :: (jsonIndent d ++ ('\x7d' :: rest))))
      (parse_render_val v (d + 1) _ f2 (by omega) (headNotDigit_objRest d kvs _))
    have hback : '"' :: ((escapeList k.data ++ ['"']) ++ (':' :: ' ' ::
        (renderVal (d + 1) v ++ (renderObjRest d kvs ++
          ('\n' :: (jsonIndent d ++ ('\x7d' :: rest))))))) =
        renderString k.data ++ (':' :: ' ' ::
          (renderVal (d + 1) v ++ (renderObjRest d kvs ++
            ('\n' :: (jsonIndent d ++ ('\x7d' :: rest)))))) := by
      show _ = ('"' :: (escapeList k.data ++ ['"'])) ++ _
      simp
    rw [hback, hfield]
    simp only []
    rw [parse_render_obj kvs d rest (f2 + 1) hkvs_le hrest]

theorem parse_render_arr : ∀ (xs : JsonArr) (d : Nat) (rest : List Char) (fuel : Nat),
    aneed xs ≤ fuel → headNotDigit rest = true →
    parseArrTail fuel (renderArrRest d xs ++ ('\n' :: (jsonIndent d ++ (']' :: rest)))) =
      some (xs, rest)
  | JsonArr.nil, d, rest, fuel, hf, _ => by
    have h1 : 1 ≤ fuel := by
      have : aneed JsonArr.nil = 1 := rfl
      omega
    obtain ⟨f, rfl⟩ : ∃ f, fuel = f + 1 := ⟨fuel - 1, by omega⟩
    show parseArrTail (f + 1) ('\n' :: (jsonIndent d ++ (']' :: rest))) = _
    rw [parseArrTail.eq_def]
    simp only []
    rw [skipWs_newline, skipWs_indent, skipWs_cons_not_ws _ (by decide)]
    simp only []
    rw [if_pos (by decide)]
  | JsonArr.cons y ys, d, rest, fuel, hf, hrest => by
    have h1 : 1 ≤ fuel := by
      have : 1 ≤ aneed (JsonArr.cons y ys) := by rw [aneed]; omega
      omega
    obtain ⟨f, rfl⟩ : ∃ f, fuel = f + 1 := ⟨fuel - 1, by omega⟩
    rw [aneed] at hf
    have hy_le : jneed y ≤ f := by
      have := le_max_left (jneed y) (aneed ys)
      omega
    have hys_le : aneed ys ≤ f := by
      have := le_max_right (jneed y) (aneed ys)
      omega
    show parseArrTail (f + 1)
      ((',' :: '\n' :: (jsonIndent (d + 1) ++ (renderVal (d + 1) y ++ renderArrRest d ys))) ++
        ('\n' :: (jsonIndent d ++ (']' :: rest)))) = _
    simp only [List.cons_append, List.append_assoc, List.singleton_append, List.nil_append]
    rw [parseArrTail.eq_def]
    simp only []
    rw [skipWs_cons_not_ws _ (by decide)]
    simp only []
    rw [if_neg (by decide), if_pos (by decide)]
    obtain ⟨c0, t0, hy, hyws, _, _, _⟩ := renderVal_head (d + 1) y
    have hval : parseVal f ('\n' :: (jsonIndent (d + 1) ++ (renderVal (d + 1) y ++
        (renderArrRest d ys ++ ('\n' :: (jsonIndent d ++ (']' :: rest))))))) =
        parseVal f (renderVal (d + 1) y ++
          (renderArrRest d ys ++ ('\n' :: (jsonIndent d ++ (']' :: rest))))) := by
      rw [parseVal_skipWs f ('\n' :: _)]
      rw [skipWs_newline, skipWs_indent, hy]
      simp only [List.cons_append]
      rw [skipWs_cons_not_ws _ hyws, ← List.cons_append, ← hy]
    rw [hval]
    rw [parse_render_val y (d + 1) _ f hy_le (headNotDigit_arrRest d ys _)]
    simp only []
    rw [parse_render_arr ys d rest f hys_le hrest]

theorem parse_render_obj : ∀ (kvs : JsonObj) (d : Nat) (rest : List Char) (fuel : Nat),
    oneed kvs ≤ fuel → headNotDigit rest = true →
    parseObjTail fuel (renderObjRest d kvs ++ ('\n' :: (jsonIndent d ++ ('\x7d' :: rest)))) =
      some (kvs, rest)
  | JsonObj.nil, d, rest, fuel, hf, _ => by
    have h1 : 1 ≤ fuel := by
      have : oneed JsonObj.nil = 1 := rfl
      omega
    obtain ⟨f, rfl⟩ : ∃ f, fuel = f + 1 := ⟨fuel - 1, by omega⟩
    show parseObjTail (f + 1) ('\n' :: (jsonIndent d ++ ('\x7d' :: rest))) = _
    rw [parseObjTail.eq_def]
    simp only []
    rw [skipWs_newline, skipWs_indent, skipWs_cons_not_ws _ (by decide)]
    simp only []
    rw [if_pos (by decide)]
  | JsonObj.cons k v kvs, d, rest, fuel, hf, hrest => by
    have h1 : 1 ≤ fuel := by
      have : 1 ≤ oneed (JsonObj.cons k v kvs) := by rw [oneed]; omega
      omega
    obtain ⟨f, rfl⟩ : ∃ f, fuel = f + 1 := ⟨fuel - 1, by omega⟩
    rw [oneed] at hf
    have hv_le : 1 + jneed v ≤ f := by
      have := le_max_left (1 + jneed v) (oneed kvs)
      omega
    have hkvs_le : oneed kvs ≤ f := by
      have := le_max_right (1 + jneed v) (oneed kvs)
      omega
    obtain ⟨f2, rfl⟩ : ∃ f2, f = f2 + 1 := ⟨f - 1, by omega⟩
    show parseObjTail (f2 + 1 + 1)
      ((',' :: '\n' :: (jsonIndent (d + 1) ++ (renderString k.data ++ (':' :: ' ' ::
        (renderVal (d + 1) v ++ renderObjRest d kvs))))) ++
        ('\n' :: (jsonIndent d ++ ('\x7d' :: rest)))) = _
    simp only [List.cons_append, List.append_assoc, List.singleton_append, List.nil_append]
    rw [parseObjTail.eq_def]
    simp only []
    rw [skipWs_cons_not_ws _ (by decide)]
    simp only []
    rw [if_neg (by decide), if_pos (by decide)]
    have hfld : parseField (f2 + 1) ('\n' :: (jsonIndent (d + 1) ++ (renderString k.data ++
        (':' :: ' ' :: (renderVal (d + 1) v ++ (renderObjRest d kvs ++
          ('\n' :: (jsonIndent d ++ ('\x7d' :: rest))))))))) =
        parseField (f2 + 1) (renderString k.data ++
          (':' :: ' ' :: (renderVal (d + 1) v ++ (renderObjRest d kvs ++
            ('\n' :: (jsonIndent d ++ ('\x7d' :: rest))))))) := by
      rw [parseField_skipWs (f2 + 1) ('\n' :: _)]
      rw [skipWs_newline, skipWs_indent]
      show parseField _ (skipWs ('"' :: ((escapeList k.data ++ ['"']) ++ _))) = _
      rw [skipWs_cons_not_ws _ (by decide)]
      simp only [renderString, List.cons_append, List.append_assoc]
    rw [hfld]
    have hfield := parseField_of f2 k v d
      (renderObjRest d kvs ++ ('\n' :: (jsonIndent d ++ ('\x7d' :: rest))))
      (parse_render_val v (d + 1) _ f2 (by omega) (headNotDigit_objRest d kvs _))
    rw [hfield]
    simp only []
    rw [parse_render_obj kvs d rest (f2 + 1) hkvs_le hrest]
end

theorem renderString_length (cs : List Char) :
    (renderString cs).length = (escapeList cs).length + 2 := by
  simp [renderString]

mutual
theorem jneed_le_length : ∀ (v : Json) (d : Nat), jneed v ≤ (renderVal d v).length
  | Json.null, d => by simp [jneed, renderVal]
  | Json.bool true, d => by simp [jneed, renderVal]
  | Json.bool false, d => by simp [jneed, renderVal]
  | Json.num (Int.ofNat n), d => by
    obtain ⟨c, t, heq, _⟩ := natCharsFuel_head (n + 1) n (by omega)
    show jneed _ ≤ (natChars n).length
    rw [jneed, natChars, heq]
    simp
  | Json.num (Int.negSucc m), d => by
    show jneed _ ≤ ('-' :: natChars (m + 1)).length
    rw [jneed]
    simp only [List.length_cons]
    omega
  | Json.str s, d => by
    show jneed _ ≤ (renderString s.data).length
    rw [jneed, renderString_length]
    omega
  | Json.arr JsonArr.nil, d => by simp [jneed, renderVal]
  | Json.arr (JsonArr.cons x xs), d => by
    have hx := jneed_le_length x (d + 1)
    have hxs := aneed_le_length xs d
    show jneed _ ≤ ('[' :: '\n' :: (jsonIndent (d + 1) ++ (renderVal (d + 1) x ++
      (renderArrRest d xs ++ ('\n' :: (jsonIndent d ++ [']'])))))).length
    rw [jneed]
    simp only [List.length_cons, List.length_append, List.length_singleton]
    have := le_max_left (jneed x) (aneed xs)
    have := le_max_right (jneed x) (aneed xs)
    have hm : max (jneed x) (aneed xs) ≤
        (renderVal (d + 1) x).length + (renderArrRest d xs).length + 1 := by
      apply max_le <;> omega
    omega
  | Json.obj JsonObj.nil, d => by simp [jneed, renderVal]
  | Json.obj (JsonObj.cons k v kvs), d => by
    have hv := jneed_le_length v (d + 1)
    have hkvs := oneed_le_length kvs d
    show jneed _ ≤ ('\x7b' :: '\n' :: (jsonIndent (d + 1) ++ (renderString k.data ++
      (':' :: ' ' :: (renderVal (d + 1) v ++ (renderObjRest d kvs ++
        ('\n' :: (jsonIndent d ++ ['\x7d'])))))))).length
    rw [jneed]
    simp only [List.length_cons, List.length_append, List.length_singleton]
    have hm : max (1 + jneed v) (oneed kvs) ≤
        (renderVal (d + 1) v).length + (renderObjRest d kvs).length + 1 := by
      apply max_le <;> omega
    omega

theorem aneed_le_length : ∀ (xs : JsonArr) (d : Nat),
    aneed xs ≤ (renderArrRest d xs).length + 1
  | JsonArr.nil, d => by simp [aneed, renderArrRest]
  | JsonArr.cons y ys, d => by
    have hy := jneed_le_length y (d + 1)
    have hys := aneed_le_length ys d
    show aneed _ ≤ (',' :: '\n' :: (jsonIndent (d + 1) ++ (renderVal (d + 1) y ++
      renderArrRest d ys))).length + 1
    rw [aneed]
    simp only [List.length_cons, List.length_append]
    have hm : max (jneed y) (aneed ys) ≤
        (renderVal (d + 1) y).length + (renderArrRest d ys).length + 1 := by
      apply max_le <;> omega
    omega

theorem oneed_le_length : ∀ (kvs : JsonObj) (d : Nat),
    oneed kvs ≤ (renderObjRest d kvs).length + 1
  | JsonObj.nil, d => by simp [oneed, renderObjRest]
  | JsonObj.cons k v kvs, d => by
    have hv := jneed_le_length v (d + 1)
    have hkvs := oneed_le_length kvs d
    show oneed _ ≤ (',' :: '\n' :: (jsonIndent (d + 1) ++ (renderString k.data ++
      (':' :: ' ' :: (renderVal (d + 1) v ++ renderObjRest d kvs))))).length + 1
    rw [oneed]
    simp only [List.length_cons, List.length_append]
    have hm : max (1 + jneed v) (oneed kvs) ≤
        (renderVal (d + 1) v).length + (renderObjRest d kvs).length + 1 := by
      apply max_le <;> omega
    omega
end

/-- Round trip: parsing the pretty-printed serialization of any value
recovers the value. -/
theorem jsonParse_jsonStringify (v : Json) : jsonParse (jsonStringify v) = some v := by
  have hmain : parseVal ((renderVal 0 v).length + 1) (renderVal 0 v) = some (v, []) := by
    have h := parse_render_val v 0 [] ((renderVal 0 v).length + 1)
      (by have := jneed_le_length v 0; omega) rfl
    simpa using h
  show (match parseVal ((renderVal 0 v).length + 1) (renderVal 0 v) with
    | some (w, rest) =>
      match skipWs rest with
      | [] => some w
      | _ => none
    | none => none) = some v
  rw [hmain]
  rfl

theorem registerList_append (hs : List ToolHandler) :
    ∀ (r : DefaultToolRegistry),
    (∀ h0 ∈ r.handlers, ∀ h ∈ hs, h0.name ≠ h.name) →
    (hs.map ToolHandler.name).Nodup →
    registerList r hs = Except.ok ⟨r.handlers ++ hs⟩ := by
  induction hs with
  | nil =>
    intro r _ _
    simp [registerList]
  | cons h hs ih =>
    intro r hdisj hnd
    have hany : r.handlers.any (fun h0 => h0.name == h.name) = false := by
      rw [List.any_eq_false]
      intro h0 hh0
      simpa using hdisj h0 hh0 h (by simp)
    rw [registerList]
    rw [DefaultToolRegistry.register, hany]
    simp only [Bool.false_eq_true, if_false]
    rw [ih ⟨r.handlers ++ [h]⟩ ?_ ?_]
    · simp
    · intro h0 hh0 h1 hh1
      rcases List.mem_append.mp hh0 with hmem | hmem
      · exact hdisj h0 hmem h1 (by simp [hh1])
      · have : h0 = h := by simpa using hmem
        subst this
        simp only [List.map_cons, List.nodup_cons] at hnd
        intro heq
        exact hnd.1 (heq ▸ List.mem_map_of_mem ToolHandler.name hh1)
    · simp only [List.map_cons, List.nodup_cons] at hnd
      exact hnd.2

theorem get_of_mem (hs : List ToolHandler)
    (hnd : (hs.map ToolHandler.name).Nodup) :
    ∀ h ∈ hs, DefaultToolRegistry.get ⟨hs⟩ h.name = some h := by
  induction hs with
  | nil => intro h hh; simp at hh
  | cons h0 tl ih =>
    intro h hh
    simp only [List.map_cons, List.nodup_cons] at hnd
    rw [DefaultToolRegistry.get]
    show List.find? _ (h0 :: tl) = _
    rw [List.find?_cons]
    rcases List.mem_cons.mp hh with heq | hmem
    · subst heq
      simp
    · have hne : (h0.name == h.name) = false := by
        rw [beq_eq_false_iff_ne]
        intro heq
        exact hnd.1 (heq ▸ List.mem_map_of_mem ToolHandler.name hmem)
      rw [hne]
      exact ih hnd.2 h hmem

theorem registerList_names_nodup (hs : List ToolHandler) :
    ∀ (r0 r : DefaultToolRegistry), (registryNames r0).Nodup →
    registerList r0 hs = Except.ok r → (registryNames r).Nodup := by
  induction hs with
  | nil =>
    intro r0 r hnd hok
    rw [registerList] at hok
    cases hok
    exact hnd
  | cons h hs ih =>
    intro r0 r hnd hok
    rw [registerList, DefaultToolRegistry.register] at hok
    by_cases hany : r0.handlers.any (fun h0 => h0.name == h.name) = true
    · rw [if_pos hany] at hok
      cases hok
    · rw [if_neg hany] at hok
      refine ih ⟨r0.handlers ++ [h]⟩ r ?_ hok
      have hnotin : h.name ∉ registryNames r0 := by
        intro hmem
        apply hany
        rw [List.any_eq_true]
        obtain ⟨h0, hh0, hname⟩ := List.mem_map.mp hmem
        exact ⟨h0, hh0, by simp [hname]⟩
      show (List.map ToolHandler.name (r0.handlers ++ [h])).Nodup
      rw [List.map_append]
      simp only [List.map_cons, List.map_nil]
      rw [List.nodup_append]
      refine ⟨hnd, List.nodup_singleton _, ?_⟩
      intro a ha hb
      have : a = h.name := by simpa using hb
      subst this
      exact hnotin ha

/-- Shared helper: when the resolved handler succeeds with a structured
(non-string, non-undefined) value, CallTool returns exactly one text block
holding its pretty-printed serialization, with isError false. -/
theorem callTool_ok_structured (reg : DefaultToolRegistry) (nm : String)
    (args : Option Json) (h : ToolHandler) (v : Json)
    (hget : reg.get nm = some h)
    (hexec : h.execute (args.getD emptyArgs) = Except.ok (some v))
    (hns : v.isStr = false) :
    callTool reg nm args = ⟨[⟨"text", jsonStringify v⟩], false⟩ := by
  rw [callTool, callToolTry, hget]
  simp only []
  rw [hexec]
  cases v with
  | str s => simp [Json.isStr] at hns
  | null => rfl
  | bool b => rfl
  | num n => rfl
  | arr xs => rfl
  | obj kvs => rfl

/-- Claim C1: for every handler registered in the registry and every
arguments object, if execute throws or rejects with message m, the CallTool
request handler returns the envelope with one text block reading Error-colon-
space plus m and isError true; callTool is a total function, so it never
itself throws and the dispatch loop keeps serving requests. -/
theorem C1_callTool_handler_error (reg : DefaultToolRegistry) (nm : String)
    (args : Option Json) (h : ToolHandler) (m : String)
    (hget : reg.get nm = some h)
    (hexec : h.execute (args.getD emptyArgs) = Except.error m) :
    callTool reg nm args = ⟨[⟨"text", "Error: " ++ m⟩], true⟩ := by
  rw [callTool, callToolTry, hget]
  simp only []
  rw [hexec]
  rfl

/-- Witness for claim C1 at a concrete failing handler. -/
theorem C1_witness :
    callTool ⟨[⟨"fail_tool", "d", Json.null, fun _ => Except.error "boom"⟩]⟩
      "fail_tool" none = ⟨[⟨"text", "Error: boom"⟩], true⟩ :=
  C1_callTool_handler_error _ _ _ _ "boom" rfl rfl

/-- Claim C2: when execute resolves successfully, CallTool normalizes the
result into exactly one text block with isError false: undefined yields the
literal text Success, a string is passed through verbatim, and any other
value yields its deterministic pretty-printed JSON serialization. -/
theorem C2_callTool_success (reg : DefaultToolRegistry) (nm : String)
    (args : Option Json) (h : ToolHandler)
    (hget : reg.get nm = some h) :
    (h.execute (args.getD emptyArgs) = Except.ok none →
      callTool reg nm args = ⟨[⟨"text", "Success"⟩], false⟩) ∧
    (∀ s, h.execute (args.getD emptyArgs) = Except.ok (some (Json.str s)) →
      callTool reg nm args = ⟨[⟨"text", s⟩], false⟩) ∧
    (∀ v, h.execute (args.getD emptyArgs) = Except.ok (some v) → v.isStr = false →
      callTool reg nm args = ⟨[⟨"text", jsonStringify v⟩], false⟩) := by
  refine ⟨?_, ?_, ?_⟩
  · intro hexec
    rw [callTool, callToolTry, hget]
    simp only []
    rw [hexec]
    rfl
  · intro s hexec
    rw [callTool, callToolTry, hget]
    simp only []
    rw [hexec]
    rfl
  · intro v hexec hns
    exact callTool_ok_structured reg nm args h v hget hexec hns

/-- Witness for claim C2 at three concrete handlers, one per result kind. -/
theorem C2_witness :
    callTool ⟨[⟨"u", "d", Json.null, fun _ => Except.ok none⟩]⟩ "u" none =
      ⟨[⟨"text", "Success"⟩], false⟩ ∧
    callTool ⟨[⟨"s", "d", Json.null, fun _ => Except.ok (some (Json.str "hi"))⟩]⟩ "s" none =
      ⟨[⟨"text", "hi"⟩], false⟩ ∧
    callTool ⟨[⟨"v", "d", Json.null,
        fun _ => Except.ok (some (Json.num 7))⟩]⟩ "v" none =
      ⟨[⟨"text", jsonStringify (Json.num 7)⟩], false⟩ :=
  ⟨(C2_callTool_success ⟨[⟨"u", "d", Json.null, fun _ => Except.ok none⟩]⟩ "u" none
      ⟨"u", "d", Json.null, fun _ => Except.ok none⟩ rfl).1 rfl,
   (C2_callTool_success ⟨[⟨"s", "d", Json.null, fun _ => Except.ok (some (Json.str "hi"))⟩]⟩
      "s" none ⟨"s", "d", Json.null, fun _ => Except.ok (some (Json.str "hi"))⟩ rfl).2.1
      "hi" rfl,
   (C2_callTool_success ⟨[⟨"v", "d", Json.null, fun _ => Except.ok (some (Json.num 7))⟩]⟩
      "v" none ⟨"v", "d", Json.null, fun _ => Except.ok (some (Json.num 7))⟩ rfl).2.2
      (Json.num 7) rfl rfl⟩

/-- Claim C3: for every tool name absent from the registry, CallTool
returns an error envelope whose text names the unknown tool, and being a
total function it never throws out of the router. -/
theorem C3_callTool_unknown (reg : DefaultToolRegistry) (nm : String)
    (args : Option Json) (hget : reg.get nm = none) :
    callTool reg nm args = ⟨[⟨"text", "Error: " ++ ("Unknown tool: " ++ nm)⟩], true⟩ := by
  rw [callTool, callToolTry, hget]
  rfl

/-- Witness for claim C3 on the empty registry. -/
theorem C3_witness :
    callTool ⟨[]⟩ "nope" none =
      ⟨[⟨"text", "Error: " ++ ("Unknown tool: " ++ "nope")⟩], true⟩ :=
  C3_callTool_unknown _ "nope" none rfl

/-- Claim C4: for every structured (non-string, non-undefined) value a
handler resolves to, the single content block of the CallTool response holds
its serialization, and parsing that text recovers a value structurally equal
to the original: the serialization round-trips losslessly. -/
theorem C4_roundtrip (reg : DefaultToolRegistry) (nm : String) (args : Option Json)
    (h : ToolHandler) (v : Json)
    (hget : reg.get nm = some h)
    (hexec : h.execute (args.getD emptyArgs) = Except.ok (some v))
    (hns : v.isStr = false) :
    (callTool reg nm args).content = [⟨"text", jsonStringify v⟩] ∧
    jsonParse (jsonStringify v) = some v := by
  refine ⟨?_, jsonParse_jsonStringify v⟩
  rw [callTool_ok_structured reg nm args h v hget hexec hns]

/-- Witness for claim C4 at a concrete object-valued result. -/
theorem C4_witness :
    (callTool ⟨[⟨"t", "d", Json.null,
        fun _ => Except.ok (some (Json.obj (JsonObj.cons "a" (Json.num 1) JsonObj.nil)))⟩]⟩
      "t" none).content =
      [⟨"text", jsonStringify (Json.obj (JsonObj.cons "a" (Json.num 1) JsonObj.nil))⟩] ∧
    jsonParse (jsonStringify (Json.obj (JsonObj.cons "a" (Json.num 1) JsonObj.nil))) =
      some (Json.obj (JsonObj.cons "a" (Json.num 1) JsonObj.nil)) :=
  C4_roundtrip _ "t" none _ _ rfl rfl rfl

/-- Claim C5: for every sequence of register calls with pairwise distinct
handler names, registration succeeds, getAll returns the handlers in
registration order, and get returns the exact handler instance registered
under each name. -/
theorem C5_registry_order (hs : List ToolHandler)
    (hnd : (hs.map ToolHandler.name).Nodup) :
    ∃ r, registerList DefaultToolRegistry.empty hs = Except.ok r ∧
      r.getAll = hs ∧ ∀ h ∈ hs, r.get h.name = some h := by
  refine ⟨⟨hs⟩, ?_, rfl, get_of_mem hs hnd⟩
  have := registerList_append hs DefaultToolRegistry.empty (by intro h0 hh0; simp [DefaultToolRegistry.empty] at hh0) hnd
  simpa [DefaultToolRegistry.empty] using this

/-- Witness for claim C5 at a concrete two-handler registration sequence. -/
theorem C5_witness :
    ∃ r, registerList DefaultToolRegistry.empty
      [⟨"a", "d", Json.null, fun _ => Except.ok none⟩,
       ⟨"b", "d", Json.null, fun _ => Except.ok none⟩] = Except.ok r ∧
      r.getAll = [⟨"a", "d", Json.null, fun _ => Except.ok none⟩,
       ⟨"b", "d", Json.null, fun _ => Except.ok none⟩] ∧
      ∀ h ∈ [(⟨"a", "d", Json.null, fun _ => Except.ok none⟩ : ToolHandler),
       ⟨"b", "d", Json.null, fun _ => Except.ok none⟩], r.get h.name = some h :=
  C5_registry_order _ (by decide)

/-- Claim C6: every registry state reachable by register calls has
pairwise distinct handler names, and registering a handler whose name is
already present fails with an error and never produces a new registry, so the
mapping is left unchanged and dispatch never sees a duplicate name. -/
theorem C6_registry_nodup (hs : List ToolHandler) (r : DefaultToolRegistry)
    (hreach : registerList DefaultToolRegistry.empty hs = Except.ok r) :
    (registryNames r).Nodup ∧
    ∀ h : ToolHandler, h.name ∈ registryNames r →
      r.register h = Except.error ("Tool already registered: " ++ h.name) ∧
      ∀ r', r.register h ≠ Except.ok r' := by
  have hnd : (registryNames r).Nodup :=
    registerList_names_nodup hs DefaultToolRegistry.empty r (by simp [registryNames, DefaultToolRegistry.empty]) hreach
  refine ⟨hnd, ?_⟩
  intro h hmem
  have hany : r.handlers.any (fun h0 => h0.name == h.name) = true := by
    rw [List.any_eq_true]
    obtain ⟨h0, hh0, hname⟩ := List.mem_map.mp hmem
    exact ⟨h0, hh0, by simp [hname]⟩
  constructor
  · rw [DefaultToolRegistry.register, if_pos hany]
  · intro r' hcontra
    rw [DefaultToolRegistry.register, if_pos hany] at hcontra
    cases hcontra

/-- Witness for claim C6: registering a duplicate name on a concrete
reachable registry is rejected. -/
theorem C6_witness :
    DefaultToolRegistry.register ⟨[⟨"a", "d", Json.null, fun _ => Except.ok none⟩]⟩
      ⟨"a", "e", Json.null, fun _ => Except.ok none⟩ =
      Except.error ("Tool already registered: " ++ "a") :=
  ((C6_registry_nodup [⟨"a", "d", Json.null, fun _ => Except.ok none⟩]
    ⟨[⟨"a", "d", Json.null, fun _ => Except.ok none⟩]⟩ rfl).2
    ⟨"a", "e", Json.null, fun _ => Except.ok none⟩ (by simp [registryNames])).1

/-- Claim C7: for every registry state, ListTools succeeds and returns the
registered handlers, in getAll order, mapped to their name, description and
inputSchema descriptors; the empty registry yields the empty tools list, not
an error. -/
theorem C7_listTools (reg : DefaultToolRegistry) :
    (listTools reg).tools =
      reg.getAll.map (fun h => MCPTool.mk h.name h.description h.inputSchema) ∧
    (listTools DefaultToolRegistry.empty).tools = [] :=
  ⟨rfl, rfl⟩

/-- Claim C8: GetPrompt returns the messages payload for the name
siyuan-usage-guide and, for every other name, fails with an unknown-prompt
error that propagates as a protocol-level failure instead of being converted
into an error envelope, unlike the CallTool path whose total callTool always
yields an envelope. -/
theorem C8_getPrompt :
    getPrompt "siyuan-usage-guide" = Except.ok ⟨usagePromptMessages⟩ ∧
    ∀ nm : String, nm ≠ "siyuan-usage-guide" →
      getPrompt nm = Except.error ("Unknown prompt: " ++ nm) := by
  constructor
  · rw [getPrompt, if_pos rfl]
  · intro nm hne
    rw [getPrompt, if_neg hne]

/-- Witness for claim C8 at a concrete unrecognized prompt name. -/
theorem C8_witness :
    getPrompt "other" = Except.error ("Unknown prompt: " ++ "other") :=
  C8_getPrompt.2 "other" (by decide)

/-- Claim C9: insert_block throws when neither or both of before_id and
after_id are provided (truthy), and with exactly one provided it calls the
corresponding insert-before or insert-after workspace operation and resolves
to an object carrying the new block id. -/
theorem C9_insertBlock (api : BlockApi) (args : InsertBlockArgs) :
    (truthyStr args.before_id = false → truthyStr args.after_id = false →
      insertBlockExecute api args =
        Except.error "Must provide exactly one of: before_id or after_id") ∧
    (truthyStr args.before_id = true → truthyStr args.after_id = true →
      insertBlockExecute api args =
        Except.error "Cannot provide both before_id and after_id — choose only one") ∧
    (truthyStr args.before_id = true → truthyStr args.after_id = false →
      insertBlockExecute api args =
        (api.insertBlockBefore (args.before_id.getD "") args.content).map
          (fun bid => ⟨bid⟩)) ∧
    (truthyStr args.before_id = false → truthyStr args.after_id = true →
      insertBlockExecute api args =
        (api.insertBlockAfter (args.after_id.getD "") args.content).map
          (fun bid => ⟨bid⟩)) := by
  refine ⟨?_, ?_, ?_, ?_⟩ <;> intro hb ha <;>
    simp [insertBlockExecute, hb, ha]

/-- Witness for claim C9 at concrete argument combinations covering all
four branches. -/
theorem C9_witness :
    insertBlockExecute ⟨fun _ _ => Except.ok "nid1", fun _ _ => Except.ok "nid2"⟩
      ⟨"c", some "b1", some "a1"⟩ =
      Except.error "Cannot provide both before_id and after_id — choose only one" ∧
    insertBlockExecute ⟨fun _ _ => Except.ok "nid1", fun _ _ => Except.ok "nid2"⟩
      ⟨"c", none, none⟩ =
      Except.error "Must provide exactly one of: before_id or after_id" ∧
    insertBlockExecute ⟨fun _ _ => Except.ok "nid1", fun _ _ => Except.ok "nid2"⟩
      ⟨"c", some "b1", none⟩ = Except.ok ⟨"nid1"⟩ ∧
    insertBlockExecute ⟨fun _ _ => Except.ok "nid1", fun _ _ => Except.ok "nid2"⟩
      ⟨"c", none, some "a1"⟩ = Except.ok ⟨"nid2"⟩ := by
  refine ⟨?_, ?_, ?_, ?_⟩
  · exact (C9_insertBlock _ _).2.1 rfl rfl
  · exact (C9_insertBlock _ _).1 rfl rfl
  · exact (C9_insertBlock _ _).2.2.1 rfl rfl
  · exact (C9_insertBlock _ _).2.2.2 rfl rfl

/-- Claim C10: the SQL string find_block_in_document sends to the search
collaborator always ends with the LIMIT 20 clause, and the handler resolves
to exactly one projected entry per returned row, hence to at most 20 entries
whenever the collaborator honors the limit. -/
theorem C10_findBlock (docId contentQuery : String) (types : Option (List String)) :
    (∃ p, findBlockSql docId contentQuery types = p ++ " LIMIT 20") ∧
    ∀ (api : SearchApi) (rows : List Block),
      api.query (findBlockSql docId contentQuery types) = Except.ok rows →
      findBlockExecute api ⟨docId, contentQuery, types⟩ =
        Except.ok (rows.map projectFound) ∧
      (rows.map projectFound).length = rows.length := by
  refine ⟨⟨findBlockSqlCore docId contentQuery types, rfl⟩, ?_⟩
  intro api rows hq
  rw [findBlockExecute]
  simp only []
  rw [hq]
  exact ⟨rfl, by simp⟩

/-- Witness for claim C10 at a concrete query. -/
theorem C10_witness :
    findBlockExecute ⟨fun _ => Except.ok []⟩ ⟨"doc1", "kw", none⟩ = Except.ok [] ∧
    ([] : List Block).map projectFound = [] :=
  ⟨((C10_findBlock "doc1" "kw" none).2 ⟨fun _ => Except.ok []⟩ [] rfl).1, rfl⟩
